import Mathlib

/-!
Verification of the Intcode virtual machine of `Srynetix/adventofcode2019`.

The definitions below are a shallow embedding of the Rust sources:

* `ParameterMode`, `Register`, `OpCode` embed
  `src/common/src/interpreter/parameter_mode.rs` and
  `src/common/src/interpreter/opcode.rs`;
* `Interpreter` and its operations embed
  `src/common/src/interpreter/mod.rs`;
* the `AocUtils` namespace embeds the earlier revision of the interpreter in
  `src/aocutils/src/interpreter/mod.rs`.

Rust `i64` values are embedded as `Int` (none of the verified programs
overflow 64 bits), with the truncated division and remainder operators of
Rust rendered as `Int.tdiv` / `Int.tmod`.  The wrapping cast `as usize`
is rendered as `intToUsize`.  A Rust `panic!` (and an out-of-bounds index
or slice) is rendered as `Option.none`.
-/

/-- Wrapping cast from `i64` to 64-bit `usize`, as performed by `as usize`. -/
def intToUsize (v : Int) : Nat := (v.emod (2 ^ 64)).toNat

/-- Parameter mode, from `parameter_mode.rs` (`ParameterMode`). -/
inductive ParameterMode where
  | Position
  | Immediate
  | Relative
deriving DecidableEq, Repr

namespace ParameterMode

/-- Embeds `ParameterMode::parse`; the `panic!` arm is `none`. -/
def parse (value : Int) : Option ParameterMode :=
  if value = 0 then some .Position
  else if value = 1 then some .Immediate
  else if value = 2 then some .Relative
  else none

end ParameterMode

/-- Register (an operand with its addressing mode), from `opcode.rs`. -/
structure Register where
  value : Int
  mode : ParameterMode
deriving DecidableEq, Repr

namespace Register

/-- Embeds `Register::new`. -/
def new (value : Int) (mode : ParameterMode) : Register :=
  ⟨value, mode⟩

/-- Embeds `Register::from_stream`; the out-of-bounds index `stream[idx]`
is `none`. -/
def from_stream (idx : Nat) (stream : List Int) (parameters : List ParameterMode) :
    Option Register :=
  match stream.get? idx with
  | none => none
  | some v => some ⟨v, (parameters.get? idx).getD ParameterMode.Position⟩

/-- Embeds `Register::from_first_arg`. -/
def from_first_arg (stream : List Int) (parameters : List ParameterMode) : Option Register :=
  from_stream 0 stream parameters

/-- Embeds `Register::from_second_arg`. -/
def from_second_arg (stream : List Int) (parameters : List ParameterMode) : Option Register :=
  from_stream 1 stream parameters

/-- Embeds `Register::from_third_arg`. -/
def from_third_arg (stream : List Int) (parameters : List ParameterMode) : Option Register :=
  from_stream 2 stream parameters

end Register

/-- Decoded instruction, from `opcode.rs` (`OpCode`). -/
inductive OpCode where
  | Add (r1 r2 r3 : Register)
  | Multiply (r1 r2 r3 : Register)
  | Store (r : Register)
  | Show (r : Register)
  | JumpIfTrue (ri ro : Register)
  | JumpIfFalse (ri ro : Register)
  | LessThan (r1 r2 r3 : Register)
  | Equals (r1 r2 r3 : Register)
  | AdjustRelativeBase (r : Register)
  | Exit
deriving DecidableEq, Repr

/-- Embeds the mode-collecting loop of `OpCode::parse`:
`while base > 0 { parameters.push(ParameterMode::parse(base % 10)); base /= 10 }`,
with the `panic!` inside `ParameterMode::parse` propagated as `none`. -/
def parseModesList (base : Int) : Option (List ParameterMode) :=
  if 0 < base then
    match ParameterMode.parse (base.tmod 10), parseModesList (base.tdiv 10) with
    | some m, some rest => some (m :: rest)
    | _, _ => none
  else
    some []
termination_by base.toNat
decreasing_by
  rename_i h
  obtain ⟨n, rfl⟩ : ∃ n : Nat, base = (n : Int) := ⟨base.toNat, (Int.toNat_of_nonneg h.le).symm⟩
  have hdiv : (n : Int).tdiv 10 = ((n / 10 : Nat) : Int) := rfl
  rw [hdiv]
  simp only [Int.toNat_natCast]
  exact Nat.div_lt_self (by exact_mod_cast h) (by norm_num)

namespace OpCode

/-- Embeds `OpCode::parse`; every Rust `panic!` (unknown opcode, unknown
mode digit, out-of-bounds operand access) is `none`.  Returns the decoded
opcode together with the instruction width. -/
def parse (code_stream : List Int) : Option (OpCode × Nat) :=
  match code_stream with
  | [] => none
  | w :: arg_stream =>
    let code := w.tmod 100
    match parseModesList (w.tdiv 100) with
    | none => none
    | some parameters =>
      if code = 1 then
        match Register.from_first_arg arg_stream parameters,
            Register.from_second_arg arg_stream parameters,
            Register.from_third_arg arg_stream parameters with
        | some r1, some r2, some r3 => some (.Add r1 r2 r3, 4)
        | _, _, _ => none
      else if code = 2 then
        match Register.from_first_arg arg_stream parameters,
            Register.from_second_arg arg_stream parameters,
            Register.from_third_arg arg_stream parameters with
        | some r1, some r2, some r3 => some (.Multiply r1 r2 r3, 4)
        | _, _, _ => none
      else if code = 3 then
        match Register.from_first_arg arg_stream parameters with
        | some r => some (.Store r, 2)
        | none => none
      else if code = 4 then
        match Register.from_first_arg arg_stream parameters with
        | some r => some (.Show r, 2)
        | none => none
      else if code = 5 then
        match Register.from_first_arg arg_stream parameters,
            Register.from_second_arg arg_stream parameters with
        | some ri, some ro => some (.JumpIfTrue ri ro, 3)
        | _, _ => none
      else if code = 6 then
        match Register.from_first_arg arg_stream parameters,
            Register.from_second_arg arg_stream parameters with
        | some ri, some ro => some (.JumpIfFalse ri ro, 3)
        | _, _ => none
      else if code = 7 then
        match Register.from_first_arg arg_stream parameters,
            Register.from_second_arg arg_stream parameters,
            Register.from_third_arg arg_stream parameters with
        | some r1, some r2, some r3 => some (.LessThan r1 r2 r3, 4)
        | _, _, _ => none
      else if code = 8 then
        match Register.from_first_arg arg_stream parameters,
            Register.from_second_arg arg_stream parameters,
            Register.from_third_arg arg_stream parameters with
        | some r1, some r2, some r3 => some (.Equals r1 r2 r3, 4)
        | _, _, _ => none
      else if code = 9 then
        match Register.from_first_arg arg_stream parameters with
        | some r => some (.AdjustRelativeBase r, 2)
        | none => none
      else if code = 99 then
        some (.Exit, 1)
      else
        none

/-- Numeric opcode selector of a decoded instruction (the value matched by
the dispatch in `OpCode::parse`). -/
def opcodeNum : OpCode → Int
  | .Add _ _ _ => 1
  | .Multiply _ _ _ => 2
  | .Store _ => 3
  | .Show _ => 4
  | .JumpIfTrue _ _ => 5
  | .JumpIfFalse _ _ => 6
  | .LessThan _ _ _ => 7
  | .Equals _ _ _ => 8
  | .AdjustRelativeBase _ => 9
  | .Exit => 99

/-- Operand registers of a decoded instruction, in argument order. -/
def operands : OpCode → List Register
  | .Add r1 r2 r3 => [r1, r2, r3]
  | .Multiply r1 r2 r3 => [r1, r2, r3]
  | .Store r => [r]
  | .Show r => [r]
  | .JumpIfTrue ri ro => [ri, ro]
  | .JumpIfFalse ri ro => [ri, ro]
  | .LessThan r1 r2 r3 => [r1, r2, r3]
  | .Equals r1 r2 r3 => [r1, r2, r3]
  | .AdjustRelativeBase r => [r]
  | .Exit => []

end OpCode

/-- Execution state, from `mod.rs` (`ExecutionState`). -/
inductive ExecutionState where
  | Next
  | Exit
  | Wait
deriving DecidableEq, Repr

/-- Interpreter state, from `mod.rs` (`Interpreter`). -/
structure Interpreter where
  data : List Int
  initial : List Int
  cursor : Nat
  input_stream : List Int
  output_stream : List Int
  debug : Bool
  relative_base : Int
deriving DecidableEq, Repr

namespace Interpreter

/-- Embeds `Interpreter::new`, applied to the already comma-split-and-parsed
program (the `data` vector). -/
def new (data : List Int) : Interpreter :=
  { initial := data
    data := data
    cursor := 0
    output_stream := []
    input_stream := []
    debug := false
    relative_base := 0 }

/-- Embeds `Interpreter::push_input` (`Vec::push` appends at the tail). -/
def push_input (m : Interpreter) (input : Int) : Interpreter :=
  { m with input_stream := m.input_stream ++ [input] }

/-- Embeds `Interpreter::pop_input` (`Vec::remove(0)` takes the head);
returns the popped value together with the updated interpreter. -/
def pop_input (m : Interpreter) : Option Int × Interpreter :=
  match m.input_stream with
  | [] => (none, m)
  | x :: rest => (some x, { m with input_stream := rest })

/-- Embeds `Interpreter::push_output` (`Vec::push` appends at the tail). -/
def push_output (m : Interpreter) (value : Int) : Interpreter :=
  { m with output_stream := m.output_stream ++ [value] }

/-- Embeds `Interpreter::pop_output` (`Vec::remove(0)` takes the head). -/
def pop_output (m : Interpreter) : Option Int × Interpreter :=
  match m.output_stream with
  | [] => (none, m)
  | x :: rest => (some x, { m with output_stream := rest })

/-- Embeds `Interpreter::allocate_memory`: pushes zeroes for indices
`data.len()..=up_to`.  The guard `up_to < data.len()` panics in Rust; it is
unreachable from `set_value`, the only caller, and on it the Rust loop body
would push nothing, which the truncated subtraction models. -/
def allocate_memory (m : Interpreter) (up_to : Nat) : Interpreter :=
  { m with data := m.data ++ List.replicate (up_to + 1 - m.data.length) 0 }

/-- Embeds `Interpreter::get_value`. -/
def get_value (m : Interpreter) (position : Nat) : Int :=
  if position ≥ m.data.length then 0
  else m.data.getD position 0

/-- Embeds `Interpreter::set_value`. -/
def set_value (m : Interpreter) (position : Nat) (value : Int) : Interpreter :=
  let m := if position ≥ m.data.length then m.allocate_memory position else m
  { m with data := m.data.set position value }

/-- Embeds `Interpreter::read_register`. -/
def read_register (m : Interpreter) (reg : Register) : Int :=
  match reg.mode with
  | .Position => m.get_value (intToUsize reg.value)
  | .Immediate => reg.value
  | .Relative => m.get_value (intToUsize (m.relative_base + reg.value))

/-- Embeds `Interpreter::read_output_register`. -/
def read_output_register (m : Interpreter) (reg : Register) : Int :=
  match reg.mode with
  | .Position => reg.value
  | .Immediate => reg.value
  | .Relative => m.relative_base + reg.value

/-- Embeds `Interpreter::adjust_relative_base`. -/
def adjust_relative_base (m : Interpreter) (offset : Int) : Interpreter :=
  { m with relative_base := m.relative_base + offset }

/-- Embeds `Interpreter::advance_cursor`. -/
def advance_cursor (m : Interpreter) (amount : Nat) : Interpreter :=
  { m with cursor := m.cursor + amount }

/-- Embeds `Interpreter::set_cursor_value`. -/
def set_cursor_value (m : Interpreter) (value : Nat) : Interpreter :=
  { m with cursor := value }

/-- Embeds `Interpreter::set_input_values` (`data[1] = noun; data[2] = verb`;
the Rust index panic on a too-short program is dropped, `List.set` is then a
no-op). -/
def set_input_values (m : Interpreter) (noun verb : Int) : Interpreter :=
  { m with data := (m.data.set 1 noun).set 2 verb }

/-- Embeds `Interpreter::restore_alarm_state`. -/
def restore_alarm_state (m : Interpreter) : Interpreter :=
  m.set_input_values 12 2

/-- Embeds `Interpreter::reset_intepreter`. -/
def reset_intepreter (m : Interpreter) : Interpreter :=
  { m with
    data := m.initial
    cursor := 0
    input_stream := []
    output_stream := []
    relative_base := 0 }

/-- Embeds `Interpreter::clear_output`. -/
def clear_output (m : Interpreter) : Interpreter :=
  { m with output_stream := [] }

/-- Embeds `Interpreter::get_stream_at_cursor` (`&self.data[self.cursor..]`);
the Rust slice panics when the cursor is past the end, rendered as `none`. -/
def get_stream_at_cursor (m : Interpreter) : Option (List Int) :=
  if m.cursor ≤ m.data.length then some (m.data.drop m.cursor) else none

/-- Embeds `Interpreter::step`; Rust panics (decode errors, out-of-range
slices) are `none`.  The debug `println!` calls are ignored. -/
def step (m : Interpreter) : Option (OpCode × ExecutionState × Interpreter) :=
  match m.get_stream_at_cursor with
  | none => none
  | some code_stream =>
    if code_stream.isEmpty then
      some (OpCode.Exit, ExecutionState.Exit, m)
    else
      match OpCode.parse code_stream with
      | none => none
      | some (opcode, count) =>
        match opcode with
        | .Add r1 r2 r3 =>
          let v1 := m.read_register r1
          let v2 := m.read_register r2
          let v3 := m.read_output_register r3
          let m := (m.set_value (intToUsize v3) (v1 + v2)).advance_cursor count
          some (opcode, ExecutionState.Next, m)
        | .Multiply r1 r2 r3 =>
          let v1 := m.read_register r1
          let v2 := m.read_register r2
          let v3 := m.read_output_register r3
          let m := (m.set_value (intToUsize v3) (v1 * v2)).advance_cursor count
          some (opcode, ExecutionState.Next, m)
        | .Store r =>
          match m.pop_input with
          | (some input, m1) =>
            let output := m1.read_output_register r
            let m2 := (m1.set_value (intToUsize output) input).advance_cursor count
            some (opcode, ExecutionState.Next, m2)
          | (none, _) =>
            some (opcode, ExecutionState.Wait, m)
        | .Show r =>
          let v := m.read_register r
          let m := (m.push_output v).advance_cursor count
          some (opcode, ExecutionState.Next, m)
        | .JumpIfTrue ri ro =>
          let i := m.read_register ri
          if i ≠ 0 then
            let o := m.read_register ro
            some (opcode, ExecutionState.Next, m.set_cursor_value (intToUsize o))
          else
            some (opcode, ExecutionState.Next, m.advance_cursor count)
        | .JumpIfFalse ri ro =>
          let i := m.read_register ri
          if i = 0 then
            let o := m.read_register ro
            some (opcode, ExecutionState.Next, m.set_cursor_value (intToUsize o))
          else
            some (opcode, ExecutionState.Next, m.advance_cursor count)
        | .LessThan r1 r2 r3 =>
          let v1 := m.read_register r1
          let v2 := m.read_register r2
          let v3 := m.read_output_register r3
          let m :=
            if v1 < v2 then m.set_value (intToUsize v3) 1
            else m.set_value (intToUsize v3) 0
          some (opcode, ExecutionState.Next, m.advance_cursor count)
        | .Equals r1 r2 r3 =>
          let v1 := m.read_register r1
          let v2 := m.read_register r2
          let v3 := m.read_output_register r3
          let m :=
            if v1 = v2 then m.set_value (intToUsize v3) 1
            else m.set_value (intToUsize v3) 0
          some (opcode, ExecutionState.Next, m.advance_cursor count)
        | .AdjustRelativeBase r =>
          let v := m.read_register r
          some (opcode, ExecutionState.Next, (m.adjust_relative_base v).advance_cursor count)
        | .Exit =>
          some (opcode, ExecutionState.Exit, m)

/-- Embeds the loop of `Interpreter::run` (the diagnostic trace string is
ignored): repeatedly `step` until the state is `Wait` or `Exit`.  Fuel makes
the loop total; `none` means a panic or fuel exhaustion. -/
def run (fuel : Nat) (m : Interpreter) : Option Interpreter :=
  match fuel with
  | 0 => none
  | fuel + 1 =>
    match m.step with
    | none => none
    | some (_, ExecutionState.Next, m1) => run fuel m1
    | some (_, ExecutionState.Exit, m1) => some m1
    | some (_, ExecutionState.Wait, m1) => some m1

/-- Embeds `Interpreter::run_with_input_output` up to the final
`dump_output` formatting: build the interpreter, push every input, run. -/
def run_with_input (data : List Int) (input : List Int) (fuel : Nat) : Option Interpreter :=
  run fuel (input.foldl push_input (new data))

end Interpreter

/-- Splitting of a character sequence on commas, as `str::split(',')` yields
its fragments (the accumulator carries the current fragment reversed). -/
def splitCommasAux : List Char → List Char → List (List Char)
  | [], acc => [acc.reverse]
  | c :: rest, acc =>
    if c = ',' then acc.reverse :: splitCommasAux rest []
    else splitCommasAux rest (c :: acc)

/-- Decimal digit value of a character, if it is a digit. -/
def charDigit (c : Char) : Option Nat :=
  if '0' ≤ c ∧ c ≤ '9' then some (c.toNat - '0'.toNat) else none

/-- Accumulating decimal parse of a digit string. -/
def parseNatAux : List Char → Nat → Option Nat
  | [], acc => some acc
  | c :: rest, acc =>
    match charDigit c with
    | none => none
    | some d => parseNatAux rest (acc * 10 + d)

/-- Embeds `str::parse::<i64>`: an optional sign followed by at least one
decimal digit.  The `i64` overflow check is omitted; every program text
considered here fits in an `i64`. -/
def parseI64 (cs : List Char) : Option Int :=
  match cs with
  | [] => none
  | '-' :: rest =>
    match rest with
    | [] => none
    | _ => (parseNatAux rest 0).map (fun n => -(n : Int))
  | '+' :: rest =>
    match rest with
    | [] => none
    | _ => (parseNatAux rest 0).map (fun n => (n : Int))
  | _ => (parseNatAux cs 0).map (fun n => (n : Int))

/-- Comma-splits the program text and parses each token as an integer,
embedding the construction in `Interpreter::new`
(`input_txt.split(',').map(|x| x.parse().unwrap())`); a parse failure
(Rust `unwrap` panic) is `none`. -/
def parseProgram (input_txt : String) : Option (List Int) :=
  (splitCommasAux input_txt.data []).mapM parseI64

namespace AocUtils

/-- Interpreter state of the earlier revision, from
`src/aocutils/src/interpreter/mod.rs` (`Interpreter`). -/
structure Interpreter where
  data : List Int
  initial : List Int
  cursor : Nat
  input_stream : List Int
  output_stream : List Int
deriving DecidableEq, Repr

/-- Embeds the aocutils `Interpreter::new`, applied to the parsed data. -/
def Interpreter.new (data : List Int) : Interpreter :=
  { initial := data
    data := data
    cursor := 0
    output_stream := []
    input_stream := [] }

/-- Embeds the aocutils `Interpreter::push_input` (`Vec::push`, tail). -/
def Interpreter.push_input (m : Interpreter) (input : Int) : Interpreter :=
  { m with input_stream := m.input_stream ++ [input] }

/-- Embeds the aocutils `Interpreter::pop_input`
(`self.input_stream.pop()`: `Vec::pop` removes and returns the LAST
element). -/
def Interpreter.pop_input (m : Interpreter) : Option Int × Interpreter :=
  (m.input_stream.getLast?, { m with input_stream := m.input_stream.dropLast })

/-- Embeds the aocutils `Interpreter::push_output` (`Vec::push`, tail). -/
def Interpreter.push_output (m : Interpreter) (value : Int) : Interpreter :=
  { m with output_stream := m.output_stream ++ [value] }

/-- Embeds the aocutils `Interpreter::pop_output`
(`self.output_stream.pop()`: `Vec::pop` removes and returns the LAST
element). -/
def Interpreter.pop_output (m : Interpreter) : Option Int × Interpreter :=
  (m.output_stream.getLast?, { m with output_stream := m.output_stream.dropLast })

/-- Embeds the aocutils `Interpreter::reset_intepreter`
(`self.data = self.initial.clone(); self.cursor = 0;` and nothing else). -/
def Interpreter.reset_intepreter (m : Interpreter) : Interpreter :=
  { m with data := m.initial, cursor := 0 }

end AocUtils

/-- States of the main interpreter reachable from a given state through its
public mutating operations (`step`, the queue operations, the memory and
cursor pokes, and `reset_intepreter`). -/
inductive Reachable : Interpreter → Interpreter → Prop where
  | refl (m : Interpreter) : Reachable m m
  | step (m m1 m2 : Interpreter) (op : OpCode) (st : ExecutionState) :
      Reachable m m1 → m1.step = some (op, st, m2) → Reachable m m2
  | push_input (m m1 : Interpreter) (v : Int) :
      Reachable m m1 → Reachable m (m1.push_input v)
  | pop_input (m m1 : Interpreter) :
      Reachable m m1 → Reachable m (m1.pop_input).2
  | push_output (m m1 : Interpreter) (v : Int) :
      Reachable m m1 → Reachable m (m1.push_output v)
  | pop_output (m m1 : Interpreter) :
      Reachable m m1 → Reachable m (m1.pop_output).2
  | clear_output (m m1 : Interpreter) :
      Reachable m m1 → Reachable m m1.clear_output
  | allocate_memory (m m1 : Interpreter) (up_to : Nat) :
      Reachable m m1 → Reachable m (m1.allocate_memory up_to)
  | set_value (m m1 : Interpreter) (position : Nat) (v : Int) :
      Reachable m m1 → Reachable m (m1.set_value position v)
  | set_input_values (m m1 : Interpreter) (noun verb : Int) :
      Reachable m m1 → Reachable m (m1.set_input_values noun verb)
  | restore_alarm_state (m m1 : Interpreter) :
      Reachable m m1 → Reachable m m1.restore_alarm_state
  | set_cursor_value (m m1 : Interpreter) (v : Nat) :
      Reachable m m1 → Reachable m (m1.set_cursor_value v)
  | adjust_relative_base (m m1 : Interpreter) (offset : Int) :
      Reachable m m1 → Reachable m (m1.adjust_relative_base offset)
  | reset_intepreter (m m1 : Interpreter) :
      Reachable m m1 → Reachable m m1.reset_intepreter

/-! Helper lemmas: controlled evaluation of the decoder. -/

theorem parseModesList_if_pos {base : Int} (hb : 0 < base) :
    parseModesList base =
      match ParameterMode.parse (base.tmod 10), parseModesList (base.tdiv 10) with
      | some m, some rest => some (m :: rest)
      | _, _ => none := by
  rw [parseModesList, if_pos hb]

theorem parseModesList_if_nonpos {base : Int} (hb : ¬ 0 < base) :
    parseModesList base = some [] := by
  rw [parseModesList, if_neg hb]

theorem parseModesList_zero : parseModesList 0 = some [] :=
  parseModesList_if_nonpos (by decide)

theorem parseModesList_one : parseModesList 1 = some [ParameterMode.Immediate] := by
  rw [parseModesList_if_pos (by decide)]
  have h1 : Int.tmod 1 10 = 1 := by decide
  have h2 : Int.tdiv 1 10 = 0 := by decide
  rw [h1, h2, parseModesList_zero]
  decide

theorem parseModesList_ten :
    parseModesList 10 = some [ParameterMode.Position, ParameterMode.Immediate] := by
  rw [parseModesList_if_pos (by decide)]
  have h1 : Int.tmod 10 10 = 0 := by decide
  have h2 : Int.tdiv 10 10 = 1 := by decide
  rw [h1, h2, parseModesList_one]
  decide

theorem parseModesList_oneEleven :
    parseModesList 111 =
      some [ParameterMode.Immediate, ParameterMode.Immediate, ParameterMode.Immediate] := by
  rw [parseModesList_if_pos (by decide)]
  have h1 : Int.tmod 111 10 = 1 := by decide
  have h2 : Int.tdiv 111 10 = 11 := by decide
  rw [h1, h2]
  rw [parseModesList_if_pos (by decide)]
  have h3 : Int.tmod 11 10 = 1 := by decide
  have h4 : Int.tdiv 11 10 = 1 := by decide
  rw [h3, h4, parseModesList_one]
  decide

theorem parse_exit : OpCode.parse [99] = some (.Exit, 1) := by
  norm_num [OpCode.parse, (by decide : Int.tdiv 99 100 = 0), (by decide : Int.tmod 99 100 = 99),
    parseModesList_zero]

theorem parse_store_pos : OpCode.parse [3, 0, 99] =
    some (.Store ⟨0, .Position⟩, 2) := by
  norm_num [OpCode.parse, (by decide : Int.tdiv 3 100 = 0), (by decide : Int.tmod 3 100 = 3),
    parseModesList_zero, Register.from_first_arg, Register.from_stream]

theorem parse_store_imm : OpCode.parse [103, 0, 99] =
    some (.Store ⟨0, .Immediate⟩, 2) := by
  norm_num [OpCode.parse, (by decide : Int.tdiv 103 100 = 1), (by decide : Int.tmod 103 100 = 3),
    parseModesList_one, Register.from_first_arg, Register.from_stream]

theorem parse_mul_1002 : OpCode.parse [1002, 4, 3, 4] =
    some (.Multiply ⟨4, .Position⟩ ⟨3, .Immediate⟩ ⟨4, .Position⟩, 4) := by
  norm_num [OpCode.parse, (by decide : Int.tdiv 1002 100 = 10), (by decide : Int.tmod 1002 100 = 2),
    parseModesList_ten, Register.from_first_arg, Register.from_second_arg,
    Register.from_third_arg, Register.from_stream]

theorem parse_add_imm_dest : OpCode.parse [11101, 2, 3, 5, 99, 0] =
    some (.Add ⟨2, .Immediate⟩ ⟨3, .Immediate⟩ ⟨5, .Immediate⟩, 4) := by
  norm_num [OpCode.parse, (by decide : Int.tdiv 11101 100 = 111),
    (by decide : Int.tmod 11101 100 = 1), parseModesList_oneEleven,
    Register.from_first_arg, Register.from_second_arg, Register.from_third_arg,
    Register.from_stream]

theorem parse_show_imm_big : OpCode.parse [104, 1125899906842624, 99] =
    some (.Show ⟨1125899906842624, .Immediate⟩, 2) := by
  norm_num [OpCode.parse, (by decide : Int.tdiv 104 100 = 1), (by decide : Int.tmod 104 100 = 4),
    parseModesList_one, Register.from_first_arg, Register.from_stream]

theorem parse_unknown_55 : OpCode.parse [55] = none := by
  norm_num [OpCode.parse, (by decide : Int.tdiv 55 100 = 0), (by decide : Int.tmod 55 100 = 55),
    parseModesList_zero]

/-! Helper lemmas: the mode-digit contract of the decoding loop. -/

theorem parseModesList_digits_aux :
    ∀ (k n : Nat), n ≤ k → ∀ ps, parseModesList (n : Int) = some ps →
      ∀ i, ParameterMode.parse (((n / 10 ^ i) % 10 : Nat) : Int) =
        some ((ps.get? i).getD ParameterMode.Position) := by
  intro k
  induction k with
  | zero =>
    intro n hn ps h i
    interval_cases n
    rw [show ((0 : Nat) : Int) = 0 from rfl, parseModesList_if_nonpos (by decide)] at h
    obtain rfl : ps = [] := by simpa using h.symm
    simp [Nat.zero_div, ParameterMode.parse]
  | succ k ih =>
    intro n hn ps h i
    by_cases hpos : 0 < n
    · rw [parseModesList_if_pos (by exact_mod_cast hpos)] at h
      rw [show ((n : Int).tmod 10) = ((n % 10 : Nat) : Int) from rfl,
        show ((n : Int).tdiv 10) = ((n / 10 : Nat) : Int) from rfl] at h
      cases hA : ParameterMode.parse ((n % 10 : Nat) : Int) with
      | none => rw [hA] at h; simp at h
      | some m =>
        cases hB : parseModesList ((n / 10 : Nat) : Int) with
        | none => rw [hA, hB] at h; simp at h
        | some rest =>
          rw [hA, hB] at h
          obtain rfl : ps = m :: rest := by simpa using h.symm
          cases i with
          | zero => simpa [Nat.pow_zero, Nat.div_one] using hA
          | succ i =>
            have hdd : n / 10 ^ (i + 1) = n / 10 / 10 ^ i := by
              rw [Nat.div_div_eq_div_mul, ← pow_succ']
            have hlt : n / 10 < n := Nat.div_lt_self hpos (by norm_num)
            have hrec := ih (n / 10) (by omega) rest hB i
            rw [hdd]
            simpa using hrec
    · obtain rfl : n = 0 := by omega
      rw [show ((0 : Nat) : Int) = 0 from rfl, parseModesList_if_nonpos (by decide)] at h
      obtain rfl : ps = [] := by simpa using h.symm
      simp [Nat.zero_div, ParameterMode.parse]

theorem parseModesList_digits {base : Int} (hb : 0 ≤ base) {ps : List ParameterMode}
    (h : parseModesList base = some ps) (i : Nat) :
    ParameterMode.parse ((base.tdiv ((10 : Int) ^ i)).tmod 10) =
      some ((ps.get? i).getD ParameterMode.Position) := by
  obtain ⟨n, rfl⟩ := Int.eq_ofNat_of_zero_le hb
  have h10 : ((10 ^ i : Nat) : Int) = (10 : Int) ^ i := by push_cast; ring
  rw [← h10]
  rw [show ((n : Int).tdiv ((10 ^ i : Nat) : Int)).tmod 10 =
      (((n / 10 ^ i) % 10 : Nat) : Int) from rfl]
  exact parseModesList_digits_aux n n le_rfl ps h i

theorem Register.from_stream_inv {idx : Nat} {args : List Int} {ps : List ParameterMode}
    {r : Register} (h : Register.from_stream idx args ps = some r) :
    args.get? idx = some r.value ∧ r.mode = (ps.get? idx).getD ParameterMode.Position := by
  unfold Register.from_stream at h
  cases hg : args.get? idx with
  | none => rw [hg] at h; simp at h
  | some v =>
    rw [hg] at h
    obtain rfl : (⟨v, (ps.get? idx).getD ParameterMode.Position⟩ : Register) = r := by
      simpa using h
    exact ⟨rfl, rfl⟩

theorem regs_spec {base : Int} (hb : 0 ≤ base) {ps : List ParameterMode}
    (hps : parseModesList base = some ps) {args : List Int} {idx : Nat} {r : Register}
    (hr : Register.from_stream idx args ps = some r) :
    ParameterMode.parse ((base.tdiv ((10 : Int) ^ idx)).tmod 10) = some r.mode ∧
      args.get? idx = some r.value := by
  obtain ⟨hv, hm⟩ := Register.from_stream_inv hr
  exact ⟨hm ▸ parseModesList_digits hb hps idx, hv⟩

theorem pos_of_tmod_pos {w : Int} (h : 0 < w.tmod 100) : 0 ≤ w := by
  cases w with
  | ofNat n => exact Int.ofNat_nonneg n
  | negSucc n =>
    rw [show (Int.negSucc n).tmod 100 = -(((n + 1) % 100 : Nat) : Int) from rfl] at h
    omega

set_option maxHeartbeats 4000000 in
/-- C3: for every decoded instruction word `w`, the opcode equals `w mod 100`,
the remaining digits read least-significant-first supply the addressing mode
for operands 0, 1, 2, ... in order (an absent digit defaulting to Position,
since the corresponding quotient digit is `0`), and decoding the word `1002`
yields Multiply with modes `[Position, Immediate]` on its first two operands. -/
theorem decode_opcode_and_modes :
    (∀ (s : List Int) (op : OpCode) (n : Nat), OpCode.parse s = some (op, n) →
      ∃ w args, s = w :: args ∧ OpCode.opcodeNum op = w.tmod 100 ∧
        ∀ (i : Nat) (r : Register), (OpCode.operands op).get? i = some r →
          ParameterMode.parse (((w.tdiv 100).tdiv ((10 : Int) ^ i)).tmod 10) = some r.mode ∧
            args.get? i = some r.value) ∧
    OpCode.parse [1002, 4, 3, 4] =
      some (.Multiply ⟨4, .Position⟩ ⟨3, .Immediate⟩ ⟨4, .Position⟩, 4) := by
  constructor
  · intro s op n h
    match s with
    | [] => simp [OpCode.parse] at h
    | w :: args =>
      refine ⟨w, args, rfl, ?_⟩
      simp only [OpCode.parse] at h
      split at h
      · exact Option.noConfusion h
      · rename_i ps hm
        split_ifs at h with h1 h2 h3 h4 h5 h6 h7 h8 h9 h99
        · have hb : (0 : Int) ≤ w.tdiv 100 :=
            Int.tdiv_nonneg (pos_of_tmod_pos (by rw [h1]; decide)) (by decide)
          cases hr1 : Register.from_first_arg args ps with
          | none => rw [hr1] at h; simp at h
          | some r1 =>
          cases hr2 : Register.from_second_arg args ps with
          | none => rw [hr1, hr2] at h; simp at h
          | some r2 =>
          cases hr3 : Register.from_third_arg args ps with
          | none => rw [hr1, hr2, hr3] at h; simp at h
          | some r3 =>
          rw [hr1, hr2, hr3] at h
          obtain ⟨rfl, rfl⟩ : op = .Add r1 r2 r3 ∧ n = 4 := by simpa using h.symm
          refine ⟨by simpa [OpCode.opcodeNum] using h1.symm, ?_⟩
          intro i r hget
          match i with
          | 0 =>
            obtain rfl : r1 = r := by simpa [OpCode.operands] using hget
            exact regs_spec hb hm hr1
          | 1 =>
            obtain rfl : r2 = r := by simpa [OpCode.operands] using hget
            exact regs_spec hb hm hr2
          | 2 =>
            obtain rfl : r3 = r := by simpa [OpCode.operands] using hget
            exact regs_spec hb hm hr3
          | (k + 3) => simp [OpCode.operands] at hget
        · have hb : (0 : Int) ≤ w.tdiv 100 :=
            Int.tdiv_nonneg (pos_of_tmod_pos (by rw [h2]; decide)) (by decide)
          cases hr1 : Register.from_first_arg args ps with
          | none => rw [hr1] at h; simp at h
          | some r1 =>
          cases hr2 : Register.from_second_arg args ps with
          | none => rw [hr1, hr2] at h; simp at h
          | some r2 =>
          cases hr3 : Register.from_third_arg args ps with
          | none => rw [hr1, hr2, hr3] at h; simp at h
          | some r3 =>
          rw [hr1, hr2, hr3] at h
          obtain ⟨rfl, rfl⟩ : op = .Multiply r1 r2 r3 ∧ n = 4 := by simpa using h.symm
          refine ⟨by simpa [OpCode.opcodeNum] using h2.symm, ?_⟩
          intro i r hget
          match i with
          | 0 =>
            obtain rfl : r1 = r := by simpa [OpCode.operands] using hget
            exact regs_spec hb hm hr1
          | 1 =>
            obtain rfl : r2 = r := by simpa [OpCode.operands] using hget
            exact regs_spec hb hm hr2
          | 2 =>
            obtain rfl : r3 = r := by simpa [OpCode.operands] using hget
            exact regs_spec hb hm hr3
          | (k + 3) => simp [OpCode.operands] at hget
        · have hb : (0 : Int) ≤ w.tdiv 100 :=
            Int.tdiv_nonneg (pos_of_tmod_pos (by rw [h3]; decide)) (by decide)
          cases hr1 : Register.from_first_arg args ps with
          | none => rw [hr1] at h; simp at h
          | some r1 =>
          rw [hr1] at h
          obtain ⟨rfl, rfl⟩ : op = .Store r1 ∧ n = 2 := by simpa using h.symm
          refine ⟨by simpa [OpCode.opcodeNum] using h3.symm, ?_⟩
          intro i r hget
          match i with
          | 0 =>
            obtain rfl : r1 = r := by simpa [OpCode.operands] using hget
            exact regs_spec hb hm hr1
          | (k + 1) => simp [OpCode.operands] at hget
        · have hb : (0 : Int) ≤ w.tdiv 100 :=
            Int.tdiv_nonneg (pos_of_tmod_pos (by rw [h4]; decide)) (by decide)
          cases hr1 : Register.from_first_arg args ps with
          | none => rw [hr1] at h; simp at h
          | some r1 =>
          rw [hr1] at h
          obtain ⟨rfl, rfl⟩ : op = .Show r1 ∧ n = 2 := by simpa using h.symm
          refine ⟨by simpa [OpCode.opcodeNum] using h4.symm, ?_⟩
          intro i r hget
          match i with
          | 0 =>
            obtain rfl : r1 = r := by simpa [OpCode.operands] using hget
            exact regs_spec hb hm hr1
          | (k + 1) => simp [OpCode.operands] at hget
        · have hb : (0 : Int) ≤ w.tdiv 100 :=
            Int.tdiv_nonneg (pos_of_tmod_pos (by rw [h5]; decide)) (by decide)
          cases hr1 : Register.from_first_arg args ps with
          | none => rw [hr1] at h; simp at h
          | some r1 =>
          cases hr2 : Register.from_second_arg args ps with
          | none => rw [hr1, hr2] at h; simp at h
          | some r2 =>
          rw [hr1, hr2] at h
          obtain ⟨rfl, rfl⟩ : op = .JumpIfTrue r1 r2 ∧ n = 3 := by simpa using h.symm
          refine ⟨by simpa [OpCode.opcodeNum] using h5.symm, ?_⟩
          intro i r hget
          match i with
          | 0 =>
            obtain rfl : r1 = r := by simpa [OpCode.operands] using hget
            exact regs_spec hb hm hr1
          | 1 =>
            obtain rfl : r2 = r := by simpa [OpCode.operands] using hget
            exact regs_spec hb hm hr2
          | (k + 2) => simp [OpCode.operands] at hget
        · have hb : (0 : Int) ≤ w.tdiv 100 :=
            Int.tdiv_nonneg (pos_of_tmod_pos (by rw [h6]; decide)) (by decide)
          cases hr1 : Register.from_first_arg args ps with
          | none => rw [hr1] at h; simp at h
          | some r1 =>
          cases hr2 : Register.from_second_arg args ps with
          | none => rw [hr1, hr2] at h; simp at h
          | some r2 =>
          rw [hr1, hr2] at h
          obtain ⟨rfl, rfl⟩ : op = .JumpIfFalse r1 r2 ∧ n = 3 := by simpa using h.symm
          refine ⟨by simpa [OpCode.opcodeNum] using h6.symm, ?_⟩
          intro i r hget
          match i with
          | 0 =>
            obtain rfl : r1 = r := by simpa [OpCode.operands] using hget
            exact regs_spec hb hm hr1
          | 1 =>
            obtain rfl : r2 = r := by simpa [OpCode.operands] using hget
            exact regs_spec hb hm hr2
          | (k + 2) => simp [OpCode.operands] at hget
        · have hb : (0 : Int) ≤ w.tdiv 100 :=
            Int.tdiv_nonneg (pos_of_tmod_pos (by rw [h7]; decide)) (by decide)
          cases hr1 : Register.from_first_arg args ps with
          | none => rw [hr1] at h; simp at h
          | some r1 =>
          cases hr2 : Register.from_second_arg args ps with
          | none => rw [hr1, hr2] at h; simp at h
          | some r2 =>
          cases hr3 : Register.from_third_arg args ps with
          | none => rw [hr1, hr2, hr3] at h; simp at h
          | some r3 =>
          rw [hr1, hr2, hr3] at h
          obtain ⟨rfl, rfl⟩ : op = .LessThan r1 r2 r3 ∧ n = 4 := by simpa using h.symm
          refine ⟨by simpa [OpCode.opcodeNum] using h7.symm, ?_⟩
          intro i r hget
          match i with
          | 0 =>
            obtain rfl : r1 = r := by simpa [OpCode.operands] using hget
            exact regs_spec hb hm hr1
          | 1 =>
            obtain rfl : r2 = r := by simpa [OpCode.operands] using hget
            exact regs_spec hb hm hr2
          | 2 =>
            obtain rfl : r3 = r := by simpa [OpCode.operands] using hget
            exact regs_spec hb hm hr3
          | (k + 3) => simp [OpCode.operands] at hget
        · have hb : (0 : Int) ≤ w.tdiv 100 :=
            Int.tdiv_nonneg (pos_of_tmod_pos (by rw [h8]; decide)) (by decide)
          cases hr1 : Register.from_first_arg args ps with
          | none => rw [hr1] at h; simp at h
          | some r1 =>
          cases hr2 : Register.from_second_arg args ps with
          | none => rw [hr1, hr2] at h; simp at h
          | some r2 =>
          cases hr3 : Register.from_third_arg args ps with
          | none => rw [hr1, hr2, hr3] at h; simp at h
          | some r3 =>
          rw [hr1, hr2, hr3] at h
          obtain ⟨rfl, rfl⟩ : op = .Equals r1 r2 r3 ∧ n = 4 := by simpa using h.symm
          refine ⟨by simpa [OpCode.opcodeNum] using h8.symm, ?_⟩
          intro i r hget
          match i with
          | 0 =>
            obtain rfl : r1 = r := by simpa [OpCode.operands] using hget
            exact regs_spec hb hm hr1
          | 1 =>
            obtain rfl : r2 = r := by simpa [OpCode.operands] using hget
            exact regs_spec hb hm hr2
          | 2 =>
            obtain rfl : r3 = r := by simpa [OpCode.operands] using hget
            exact regs_spec hb hm hr3
          | (k + 3) => simp [OpCode.operands] at hget
        · have hb : (0 : Int) ≤ w.tdiv 100 :=
            Int.tdiv_nonneg (pos_of_tmod_pos (by rw [h9]; decide)) (by decide)
          cases hr1 : Register.from_first_arg args ps with
          | none => rw [hr1] at h; simp at h
          | some r1 =>
          rw [hr1] at h
          obtain ⟨rfl, rfl⟩ : op = .AdjustRelativeBase r1 ∧ n = 2 := by simpa using h.symm
          refine ⟨by simpa [OpCode.opcodeNum] using h9.symm, ?_⟩
          intro i r hget
          match i with
          | 0 =>
            obtain rfl : r1 = r := by simpa [OpCode.operands] using hget
            exact regs_spec hb hm hr1
          | (k + 1) => simp [OpCode.operands] at hget
        · obtain ⟨rfl, rfl⟩ : op = .Exit ∧ n = 1 := by simpa using h.symm
          refine ⟨by simpa [OpCode.opcodeNum] using h99.symm, ?_⟩
          intro i r hget
          simp [OpCode.operands] at hget
  · exact parse_mul_1002

/-! Helper lemmas: elementary facts about the interpreter operations. -/

theorem advance_cursor_initial (m : Interpreter) (c : Nat) :
    (m.advance_cursor c).initial = m.initial := rfl

theorem advance_cursor_data (m : Interpreter) (c : Nat) :
    (m.advance_cursor c).data = m.data := rfl

theorem set_value_initial (m : Interpreter) (p : Nat) (v : Int) :
    (m.set_value p v).initial = m.initial := by
  unfold Interpreter.set_value Interpreter.allocate_memory
  split <;> rfl

theorem set_value_length_le (m : Interpreter) (p : Nat) (v : Int) :
    m.data.length ≤ (m.set_value p v).data.length := by
  unfold Interpreter.set_value Interpreter.allocate_memory
  split <;> simp

theorem set_value_covers (m : Interpreter) (pos : Nat) (v : Int) :
    pos < (m.set_value pos v).data.length := by
  unfold Interpreter.set_value Interpreter.allocate_memory
  by_cases h : pos ≥ m.data.length
  · rw [if_pos h]
    simp only [List.length_set, List.length_append, List.length_replicate]
    omega
  · rw [if_neg h]
    simp only [List.length_set]
    omega

theorem get_value_beyond (m : Interpreter) (pos : Nat) (h : m.data.length ≤ pos) :
    m.get_value pos = 0 := by
  unfold Interpreter.get_value
  rw [if_pos (by omega : pos ≥ m.data.length)]

theorem set_append_length (xs : List Int) (a v : Int) :
    (xs ++ [a]).set xs.length v = xs ++ [v] := by
  induction xs with
  | nil => rfl
  | cons x xs ih => simp [List.set, ih]

theorem set_value_grow (m : Interpreter) (pos : Nat) (v : Int) (hlen : m.data.length ≤ pos) :
    (m.set_value pos v).data = m.data ++ List.replicate (pos - m.data.length) 0 ++ [v] := by
  unfold Interpreter.set_value Interpreter.allocate_memory
  rw [if_pos (by omega : pos ≥ m.data.length)]
  dsimp only
  have hk : pos + 1 - m.data.length = (pos - m.data.length) + 1 := by omega
  rw [hk, List.replicate_succ', ← List.append_assoc]
  have hlen2 : (m.data ++ List.replicate (pos - m.data.length) 0).length = pos := by
    simp
    omega
  have h2 := set_append_length (m.data ++ List.replicate (pos - m.data.length) 0) 0 v
  rw [hlen2] at h2
  rw [h2]

theorem step_facts {m m' : Interpreter} {op : OpCode} {st : ExecutionState}
    (h : m.step = some (op, st, m')) :
    m'.initial = m.initial ∧ m.data.length ≤ m'.data.length := by
  unfold Interpreter.step at h
  cases hg : m.get_stream_at_cursor with
  | none => rw [hg] at h; exact Option.noConfusion h
  | some cs =>
    rw [hg] at h
    cases cs with
    | nil =>
      simp only [List.isEmpty_nil, if_true] at h
      simp only [Option.some.injEq, Prod.mk.injEq] at h
      obtain ⟨rfl, rfl, rfl⟩ := h
      exact ⟨rfl, le_refl _⟩
    | cons a l =>
      simp only [List.isEmpty_cons, Bool.false_eq_true, if_false] at h
      cases hp : OpCode.parse (a :: l) with
      | none => rw [hp] at h; exact Option.noConfusion h
      | some x =>
        obtain ⟨opc, cnt⟩ := x
        rw [hp] at h
        cases opc with
        | Add r1 r2 r3 =>
          dsimp only at h
          simp only [Option.some.injEq, Prod.mk.injEq] at h
          obtain ⟨rfl, rfl, rfl⟩ := h
          constructor
          · rw [advance_cursor_initial, set_value_initial]
          · rw [advance_cursor_data]
            exact set_value_length_le m _ _
        | Multiply r1 r2 r3 =>
          dsimp only at h
          simp only [Option.some.injEq, Prod.mk.injEq] at h
          obtain ⟨rfl, rfl, rfl⟩ := h
          constructor
          · rw [advance_cursor_initial, set_value_initial]
          · rw [advance_cursor_data]
            exact set_value_length_le m _ _
        | Store r =>
          dsimp only at h
          cases hin : m.input_stream with
          | nil =>
            rw [show m.pop_input = (none, m) by unfold Interpreter.pop_input; rw [hin]] at h
            dsimp only at h
            simp only [Option.some.injEq, Prod.mk.injEq] at h
            obtain ⟨rfl, rfl, rfl⟩ := h
            exact ⟨rfl, le_refl _⟩
          | cons b tl =>
            rw [show m.pop_input = (some b, { m with input_stream := tl })
              by unfold Interpreter.pop_input; rw [hin]] at h
            dsimp only at h
            simp only [Option.some.injEq, Prod.mk.injEq] at h
            obtain ⟨rfl, rfl, rfl⟩ := h
            constructor
            · rw [advance_cursor_initial, set_value_initial]
            · rw [advance_cursor_data]
              exact set_value_length_le { m with input_stream := tl } _ _
        | Show r =>
          dsimp only at h
          simp only [Option.some.injEq, Prod.mk.injEq] at h
          obtain ⟨rfl, rfl, rfl⟩ := h
          exact ⟨rfl, le_refl _⟩
        | JumpIfTrue ri ro =>
          dsimp only at h
          by_cases hz : m.read_register ri ≠ 0
          · rw [if_pos hz] at h
            simp only [Option.some.injEq, Prod.mk.injEq] at h
            obtain ⟨rfl, rfl, rfl⟩ := h
            exact ⟨rfl, le_refl _⟩
          · rw [if_neg hz] at h
            simp only [Option.some.injEq, Prod.mk.injEq] at h
            obtain ⟨rfl, rfl, rfl⟩ := h
            exact ⟨rfl, le_refl _⟩
        | JumpIfFalse ri ro =>
          dsimp only at h
          by_cases hz : m.read_register ri = 0
          · rw [if_pos hz] at h
            simp only [Option.some.injEq, Prod.mk.injEq] at h
            obtain ⟨rfl, rfl, rfl⟩ := h
            exact ⟨rfl, le_refl _⟩
          · rw [if_neg hz] at h
            simp only [Option.some.injEq, Prod.mk.injEq] at h
            obtain ⟨rfl, rfl, rfl⟩ := h
            exact ⟨rfl, le_refl _⟩
        | LessThan r1 r2 r3 =>
          dsimp only at h
          by_cases hlt : m.read_register r1 < m.read_register r2
          · rw [if_pos hlt] at h
            simp only [Option.some.injEq, Prod.mk.injEq] at h
            obtain ⟨rfl, rfl, rfl⟩ := h
            constructor
            · rw [advance_cursor_initial, set_value_initial]
            · rw [advance_cursor_data]
              exact set_value_length_le m _ _
          · rw [if_neg hlt] at h
            simp only [Option.some.injEq, Prod.mk.injEq] at h
            obtain ⟨rfl, rfl, rfl⟩ := h
            constructor
            · rw [advance_cursor_initial, set_value_initial]
            · rw [advance_cursor_data]
              exact set_value_length_le m _ _
        | Equals r1 r2 r3 =>
          dsimp only at h
          by_cases heq : m.read_register r1 = m.read_register r2
          · rw [if_pos heq] at h
            simp only [Option.some.injEq, Prod.mk.injEq] at h
            obtain ⟨rfl, rfl, rfl⟩ := h
            constructor
            · rw [advance_cursor_initial, set_value_initial]
            · rw [advance_cursor_data]
              exact set_value_length_le m _ _
          · rw [if_neg heq] at h
            simp only [Option.some.injEq, Prod.mk.injEq] at h
            obtain ⟨rfl, rfl, rfl⟩ := h
            constructor
            · rw [advance_cursor_initial, set_value_initial]
            · rw [advance_cursor_data]
              exact set_value_length_le m _ _
        | AdjustRelativeBase r =>
          dsimp only at h
          simp only [Option.some.injEq, Prod.mk.injEq] at h
          obtain ⟨rfl, rfl, rfl⟩ := h
          exact ⟨rfl, le_refl _⟩
        | Exit =>
          dsimp only at h
          simp only [Option.some.injEq, Prod.mk.injEq] at h
          obtain ⟨rfl, rfl, rfl⟩ := h
          exact ⟨rfl, le_refl _⟩


theorem step99 : (Interpreter.new [99]).step =
    some (OpCode.Exit, ExecutionState.Exit, Interpreter.new [99]) := by
  norm_num [Interpreter.step, Interpreter.get_stream_at_cursor, Interpreter.new, parse_exit]

/-- C10: when the cursor sits exactly at the end of memory, the instruction
stream at the cursor is empty and `step` returns the Exit state without
decoding anything and without mutating the interpreter. -/
theorem step_exit_at_end (m : Interpreter) (h : m.cursor = m.data.length) :
    m.step = some (OpCode.Exit, ExecutionState.Exit, m) := by
  unfold Interpreter.step Interpreter.get_stream_at_cursor
  rw [h]
  simp [List.drop_length]

theorem step_exit_at_end_witness :
    ((Interpreter.new [99]).set_cursor_value 1).step =
      some (OpCode.Exit, ExecutionState.Exit, (Interpreter.new [99]).set_cursor_value 1) :=
  step_exit_at_end _ (by decide)

/-- C1: on an Input (opcode 3, `Store`) instruction with an empty input
queue, `step` returns Wait and the interpreter is entirely unchanged; after
`push_input v`, the next `step` completes that same instruction once,
consuming exactly the one pushed value, writing it to the resolved
destination and advancing the cursor by the instruction width. -/
theorem step_input_wait_then_consume (m : Interpreter) (r : Register) (cs : List Int) (c : Nat)
    (hs : m.get_stream_at_cursor = some cs)
    (hp : OpCode.parse cs = some (.Store r, c))
    (hi : m.input_stream = []) :
    m.step = some (.Store r, ExecutionState.Wait, m) ∧
    ∀ v : Int, (m.push_input v).step =
      some (.Store r, ExecutionState.Next,
        (m.set_value (intToUsize (m.read_output_register r)) v).advance_cursor c) := by
  cases cs with
  | nil => simp [OpCode.parse] at hp
  | cons a l =>
    constructor
    · unfold Interpreter.step
      rw [hs]
      simp only [List.isEmpty_cons, Bool.false_eq_true, if_false]
      rw [hp]
      unfold Interpreter.pop_input
      rw [hi]
    · intro v
      have hm1 : ({ m with input_stream := [] } : Interpreter) = m := by
        cases m
        simp_all
      have hs2 : (m.push_input v).get_stream_at_cursor = some (a :: l) := by
        simpa [Interpreter.push_input, Interpreter.get_stream_at_cursor] using hs
      unfold Interpreter.step
      rw [hs2]
      simp only [List.isEmpty_cons, Bool.false_eq_true, if_false]
      rw [hp]
      unfold Interpreter.pop_input
      simp only [Interpreter.push_input, hi, List.nil_append]
      rw [hm1]

theorem step_input_wait_then_consume_witness :
    (Interpreter.new [3, 0, 99]).step =
      some (.Store ⟨0, .Position⟩, ExecutionState.Wait, Interpreter.new [3, 0, 99]) ∧
    ((Interpreter.new [3, 0, 99]).push_input 7).step =
      some (.Store ⟨0, .Position⟩, ExecutionState.Next,
        ((Interpreter.new [3, 0, 99]).set_value
          (intToUsize ((Interpreter.new [3, 0, 99]).read_output_register ⟨0, .Position⟩))
          7).advance_cursor 2) := by
  have h := step_input_wait_then_consume (Interpreter.new [3, 0, 99]) ⟨0, .Position⟩
    [3, 0, 99] 2 (by decide) parse_store_pos rfl
  exact ⟨h.1, h.2 7⟩

/-- C2 (amended): memory reads at or beyond the current extent return `0`
and never error; a write beyond the extent grows the store, zero-filling
every intermediate address, then stores the value; a write always leaves the
written address covered; and the store length never shrinks under a write or
under `step`.  (The claim's "never shrinks under any Engine operation" fails
for `reset_intepreter`, which restores the initial snapshot.) -/
theorem memory_zero_fill_growth :
    (∀ (m : Interpreter) (pos : Nat), m.data.length ≤ pos → m.get_value pos = 0) ∧
    (∀ (m : Interpreter) (pos : Nat) (v : Int), m.data.length ≤ pos →
      (m.set_value pos v).data =
        m.data ++ List.replicate (pos - m.data.length) 0 ++ [v]) ∧
    (∀ (m : Interpreter) (pos : Nat) (v : Int),
      m.data.length ≤ (m.set_value pos v).data.length ∧
        pos < (m.set_value pos v).data.length) ∧
    (∀ (m m' : Interpreter) (op : OpCode) (st : ExecutionState),
      m.step = some (op, st, m') → m.data.length ≤ m'.data.length) :=
  ⟨fun m pos h => get_value_beyond m pos h,
   fun m pos v h => set_value_grow m pos v h,
   fun m pos v => ⟨set_value_length_le m pos v, set_value_covers m pos v⟩,
   fun _ _ _ _ h => (step_facts h).2⟩

theorem reset_shrinks_store :
    ¬ (((Interpreter.new [99]).set_value 5 7).data.length ≤
        ((Interpreter.new [99]).set_value 5 7).reset_intepreter.data.length) := by
  decide

theorem memory_zero_fill_growth_witness :
    (Interpreter.new [99]).get_value 5 = 0 ∧
    ((Interpreter.new [99]).set_value 5 7).data =
      (Interpreter.new [99]).data ++
        List.replicate (5 - (Interpreter.new [99]).data.length) 0 ++ [7] ∧
    ((Interpreter.new [99]).set_value 5 7).data.length ≥ (Interpreter.new [99]).data.length ∧
    (Interpreter.new [99]).data.length ≤ (Interpreter.new [99]).data.length := by
  have h := memory_zero_fill_growth
  exact ⟨h.1 (Interpreter.new [99]) 5 (by decide),
    h.2.1 (Interpreter.new [99]) 5 7 (by decide),
    (h.2.2.1 (Interpreter.new [99]) 5 7).1,
    h.2.2.2 (Interpreter.new [99]) (Interpreter.new [99]) OpCode.Exit ExecutionState.Exit step99⟩

/-- C5 (amended): for a write destination (here the Input/`Store`
instruction's operand) with raw value `r`, the resolved write address is `r`
in Position mode, `relativeBase + r` in Relative mode, and in Immediate mode
the Engine does not fail: it accepts the operand and resolves it to the raw
value `r`, exactly as in Position mode. -/
theorem store_write_destination (m : Interpreter) (r : Register) (cs : List Int) (c : Nat)
    (v : Int) (tl : List Int)
    (hs : m.get_stream_at_cursor = some cs)
    (hp : OpCode.parse cs = some (.Store r, c))
    (hi : m.input_stream = v :: tl) :
    m.step = some (.Store r, ExecutionState.Next,
      (({ m with input_stream := tl }).set_value
        (intToUsize (match r.mode with
          | .Position => r.value
          | .Immediate => r.value
          | .Relative => m.relative_base + r.value)) v).advance_cursor c) := by
  cases cs with
  | nil => simp [OpCode.parse] at hp
  | cons a l =>
    unfold Interpreter.step
    rw [hs]
    simp only [List.isEmpty_cons, Bool.false_eq_true, if_false]
    rw [hp]
    unfold Interpreter.pop_input
    rw [hi]
    rfl

theorem immediate_write_destination_executes :
    (Interpreter.new [11101, 2, 3, 5, 99, 0]).step =
      some (.Add ⟨2, .Immediate⟩ ⟨3, .Immediate⟩ ⟨5, .Immediate⟩, ExecutionState.Next,
        { data := [11101, 2, 3, 5, 99, 5], initial := [11101, 2, 3, 5, 99, 0], cursor := 4,
          input_stream := [], output_stream := [], debug := false, relative_base := 0 }) := by
  norm_num [Interpreter.step, Interpreter.get_stream_at_cursor, Interpreter.new,
    parse_add_imm_dest, Interpreter.read_register, Interpreter.read_output_register,
    Interpreter.set_value, Interpreter.advance_cursor, Interpreter.allocate_memory,
    (by decide : intToUsize 5 = 5), Interpreter.get_value]

theorem store_write_destination_witness :
    ((Interpreter.new [103, 0, 99]).push_input 8).step =
      some (.Store ⟨0, .Immediate⟩, ExecutionState.Next,
        (({ (Interpreter.new [103, 0, 99]).push_input 8 with input_stream := [] }).set_value
          (intToUsize (match (⟨0, .Immediate⟩ : Register).mode with
            | .Position => (⟨0, .Immediate⟩ : Register).value
            | .Immediate => (⟨0, .Immediate⟩ : Register).value
            | .Relative =>
              ((Interpreter.new [103, 0, 99]).push_input 8).relative_base +
                (⟨0, .Immediate⟩ : Register).value)) 8).advance_cursor 2) :=
  store_write_destination ((Interpreter.new [103, 0, 99]).push_input 8) ⟨0, .Immediate⟩
    [103, 0, 99] 2 8 [] (by decide) parse_store_imm rfl

/-- C6: evaluation of the aocutils revision at the failing input.  After
pushing `1` then `2` into a fresh engine, `pop_input` returns `2` — the most
recently pushed value (`Vec::pop`, stack order), not the earliest pushed
value required by the FIFO discipline; `pop_output` behaves the same way. -/
theorem aocutils_pop_is_lifo :
    (((AocUtils.Interpreter.new [99]).push_input 1).push_input 2).pop_input =
      (some 2, (AocUtils.Interpreter.new [99]).push_input 1) ∧
    (((AocUtils.Interpreter.new [99]).push_output 1).push_output 2).pop_output =
      (some 2, (AocUtils.Interpreter.new [99]).push_output 1) := by
  decide

/-- C7 (amended): in the main interpreter, `reset_intepreter` on any state
reachable from `new data` restores working memory exactly to the parsed
program, zeroes cursor and relative base, and empties both queues.  (The
earlier aocutils revision restores only memory and cursor, leaving both
queues untouched.) -/
theorem reset_restores_snapshot (data : List Int) (m : Interpreter)
    (h : Reachable (Interpreter.new data) m) :
    m.reset_intepreter.data = data ∧ m.reset_intepreter.cursor = 0 ∧
      m.reset_intepreter.relative_base = 0 ∧ m.reset_intepreter.input_stream = [] ∧
      m.reset_intepreter.output_stream = [] := by
  have hinit : m.initial = data := by
    induction h with
    | refl => rfl
    | step m1 m2 op st hr hs ih => rw [← ih]; exact (step_facts hs).1
    | push_input m1 v hr ih => exact ih
    | pop_input m1 hr ih =>
      show (m1.pop_input).2.initial = data
      cases hm : m1.input_stream <;> simp [Interpreter.pop_input, hm] <;> exact ih
    | push_output m1 v hr ih => exact ih
    | pop_output m1 hr ih =>
      show (m1.pop_output).2.initial = data
      cases hm : m1.output_stream <;> simp [Interpreter.pop_output, hm] <;> exact ih
    | clear_output m1 hr ih => exact ih
    | allocate_memory m1 up_to hr ih => exact ih
    | set_value m1 position v hr ih => rw [set_value_initial]; exact ih
    | set_input_values m1 noun verb hr ih => exact ih
    | restore_alarm_state m1 hr ih => exact ih
    | set_cursor_value m1 v hr ih => exact ih
    | adjust_relative_base m1 offset hr ih => exact ih
    | reset_intepreter m1 hr ih => exact ih
  unfold Interpreter.reset_intepreter
  exact ⟨hinit, rfl, rfl, rfl, rfl⟩

theorem aocutils_reset_keeps_queues :
    ((AocUtils.Interpreter.new [99]).push_input 5).reset_intepreter.input_stream ≠ [] := by
  decide

theorem reset_restores_snapshot_witness :
    ((Interpreter.new [99]).push_input 5).reset_intepreter.data = [99] ∧
    ((Interpreter.new [99]).push_input 5).reset_intepreter.cursor = 0 ∧
    ((Interpreter.new [99]).push_input 5).reset_intepreter.relative_base = 0 ∧
    ((Interpreter.new [99]).push_input 5).reset_intepreter.input_stream = [] ∧
    ((Interpreter.new [99]).push_input 5).reset_intepreter.output_stream = [] :=
  reset_restores_snapshot [99] _
    (Reachable.push_input _ _ 5 (Reachable.refl _))

/-- C4: an instruction word whose opcode (word mod 100) is outside the
recognized set {1,...,9,99}, or one of whose present mode digits exceeds 2,
is a fatal decode error: `parse` fails, and `step`/`run` on such a stream
abort with the error instead of skipping or continuing. -/
theorem decode_error_fatal (w : Int) (args : List Int) (m : Interpreter) (fuel : Nat)
    (hbad : w.tmod 100 ∉ ([1, 2, 3, 4, 5, 6, 7, 8, 9, 99] : List Int) ∨
      ∃ i : Nat, (10 : Int) ^ i ≤ w.tdiv 100 ∧
        2 < ((w.tdiv 100).tdiv ((10 : Int) ^ i)).tmod 10) :
    OpCode.parse (w :: args) = none ∧
    (m.get_stream_at_cursor = some (w :: args) → m.step = none) ∧
    (m.get_stream_at_cursor = some (w :: args) → m.run (fuel + 1) = none) := by
  have hparse : OpCode.parse (w :: args) = none := by
    rcases hbad with hcode | ⟨i, hge, hdig⟩
    · simp only [List.mem_cons, List.not_mem_nil, or_false, not_or] at hcode
      obtain ⟨g1, g2, g3, g4, g5, g6, g7, g8, g9, g99⟩ := hcode
      simp only [OpCode.parse]
      cases hm : parseModesList (w.tdiv 100) with
      | none => rfl
      | some ps =>
        simp only [g1, g2, g3, g4, g5, g6, g7, g8, g9, g99, if_false]
    · have hb0 : (0 : Int) ≤ w.tdiv 100 :=
        le_trans (pow_nonneg (by norm_num) i) hge
      cases hm : parseModesList (w.tdiv 100) with
      | none => simp only [OpCode.parse]; rw [hm]
      | some ps =>
        exfalso
        have hd := parseModesList_digits hb0 hm i
        unfold ParameterMode.parse at hd
        rw [if_neg (by omega), if_neg (by omega), if_neg (by omega)] at hd
        exact Option.noConfusion hd
  have hstep : m.get_stream_at_cursor = some (w :: args) → m.step = none := by
    intro hs
    unfold Interpreter.step
    rw [hs]
    simp only [List.isEmpty_cons, Bool.false_eq_true, if_false]
    rw [hparse]
  refine ⟨hparse, hstep, fun hs => ?_⟩
  rw [Interpreter.run]
  rw [hstep hs]

theorem decode_error_fatal_witness :
    OpCode.parse [(55 : Int)] = none ∧
    (Interpreter.new [55]).step = none ∧
    (Interpreter.new [55]).run 1 = none := by
  have h := decode_error_fatal 55 [] (Interpreter.new [55]) 0 (Or.inl (by decide))
  exact ⟨h.1, h.2.1 (by decide), h.2.2 (by decide)⟩

/-! Helper lemmas: fuel monotonicity of `run`. -/

theorem run_mono : ∀ (f : Nat) (m r : Interpreter), Interpreter.run f m = some r →
    Interpreter.run (f + 1) m = some r := by
  intro f
  induction f with
  | zero => intro m r h; simp [Interpreter.run] at h
  | succ f ih =>
    intro m r h
    rw [Interpreter.run] at h
    rw [Interpreter.run]
    cases hs : m.step with
    | none => rw [hs] at h; exact Option.noConfusion h
    | some x =>
      obtain ⟨op, st, m1⟩ := x
      rw [hs] at h
      cases st with
      | Next => exact ih m1 r h
      | Exit => exact h
      | Wait => exact h

theorem run_le_mono : ∀ {f f' : Nat} {m r : Interpreter}, Interpreter.run f m = some r →
    f ≤ f' → Interpreter.run f' m = some r := by
  intro f f' m r h hle
  induction hle with
  | refl => exact h
  | step hk ih => exact run_mono _ m r ih

/-- C9: execution is deterministic — for a fixed program and fixed input
sequence, any two runs that complete (under any fuel bounds) produce the
same output sequence and the same final memory. -/
theorem run_deterministic (data input : List Int) (f1 f2 : Nat) (m1 m2 : Interpreter)
    (h1 : Interpreter.run_with_input data input f1 = some m1)
    (h2 : Interpreter.run_with_input data input f2 = some m2) :
    m1.output_stream = m2.output_stream ∧ m1.data = m2.data := by
  unfold Interpreter.run_with_input at h1 h2
  have hm : m1 = m2 := by
    rcases le_total f1 f2 with hle | hle
    · have h1' := run_le_mono h1 hle
      exact Option.some.inj (h1'.symm.trans h2)
    · have h2' := run_le_mono h2 hle
      exact (Option.some.inj (h2'.symm.trans h1)).symm
  subst hm
  exact ⟨rfl, rfl⟩

theorem run99_1 : Interpreter.run_with_input [99] [] 1 = some (Interpreter.new [99]) := by
  unfold Interpreter.run_with_input
  simp only [List.foldl]
  rw [show (1 : Nat) = 0 + 1 from rfl, Interpreter.run, step99]

theorem run99_2 : Interpreter.run_with_input [99] [] 2 = some (Interpreter.new [99]) := by
  unfold Interpreter.run_with_input
  simp only [List.foldl]
  rw [show (2 : Nat) = 1 + 1 from rfl, Interpreter.run, step99]

theorem run_deterministic_witness :
    (Interpreter.new [99]).output_stream = (Interpreter.new [99]).output_stream ∧
    (Interpreter.new [99]).data = (Interpreter.new [99]).data :=
  run_deterministic [99] [] 1 2 (Interpreter.new [99]) (Interpreter.new [99]) run99_1 run99_2

theorem decode_opcode_and_modes_witness :
    ∃ w args, ([1002, 4, 3, 4] : List Int) = w :: args ∧
      OpCode.opcodeNum (.Multiply ⟨4, .Position⟩ ⟨3, .Immediate⟩ ⟨4, .Position⟩) =
        w.tmod 100 ∧
      ∀ (i : Nat) (r : Register),
        (OpCode.operands
          (.Multiply ⟨4, .Position⟩ ⟨3, .Immediate⟩ ⟨4, .Position⟩)).get? i = some r →
          ParameterMode.parse (((w.tdiv 100).tdiv ((10 : Int) ^ i)).tmod 10) = some r.mode ∧
            args.get? i = some r.value :=
  decode_opcode_and_modes.1 [1002, 4, 3, 4]
    (.Multiply ⟨4, .Position⟩ ⟨3, .Immediate⟩ ⟨4, .Position⟩) 4 parse_mul_1002

theorem step_big_1 : (Interpreter.new [104, 1125899906842624, 99]).step =
    some (.Show ⟨1125899906842624, .Immediate⟩, ExecutionState.Next,
      { data := [104, 1125899906842624, 99], initial := [104, 1125899906842624, 99],
        cursor := 2, input_stream := [], output_stream := [1125899906842624],
        debug := false, relative_base := 0 }) := by
  norm_num [Interpreter.step, Interpreter.get_stream_at_cursor, Interpreter.new,
    parse_show_imm_big, Interpreter.read_register, Interpreter.push_output,
    Interpreter.advance_cursor]

theorem step_big_2 :
    ({ data := [104, 1125899906842624, 99], initial := [104, 1125899906842624, 99],
       cursor := 2, input_stream := [], output_stream := [1125899906842624],
       debug := false, relative_base := 0 } : Interpreter).step =
    some (OpCode.Exit, ExecutionState.Exit,
      { data := [104, 1125899906842624, 99], initial := [104, 1125899906842624, 99],
        cursor := 2, input_stream := [], output_stream := [1125899906842624],
        debug := false, relative_base := 0 }) := by
  norm_num [Interpreter.step, Interpreter.get_stream_at_cursor, parse_exit]

/-- C8: the program text `"104,1125899906842624,99"` parses without
truncation and runs to completion (Exit) with the single output value
exactly `1125899906842624`, demonstrating integers wider than 32 bits at
parse, store and output. -/
theorem wide_integer_output :
    parseProgram "104,1125899906842624,99" = some [104, 1125899906842624, 99] ∧
    Interpreter.run 2 (Interpreter.new [104, 1125899906842624, 99]) =
      some { data := [104, 1125899906842624, 99],
             initial := [104, 1125899906842624, 99],
             cursor := 2, input_stream := [], output_stream := [1125899906842624],
             debug := false, relative_base := 0 } := by
  constructor
  · decide
  · rw [show (2 : Nat) = 1 + 1 from rfl, Interpreter.run, step_big_1]
    dsimp only
    rw [show (1 : Nat) = 0 + 1 from rfl, Interpreter.run, step_big_2]
